import Mathlib

/-
Verification development for the `abnf_converter` tool: a transpiler from a
parsed ABNF rule list to a JSON-style grammar for a grammar-based fuzzer.

The definitions below are a shallow embedding of `src/abnf_converter/src/main.rs`.
Strings are modelled as `List Char`; Rust functions that can panic
(`unimplemented!`, `unreachable!`, `char::from_u32(..).unwrap()`) are modelled
as `Except Err`-valued functions.  The body synthesizer in the source is
recursive with one genuinely non-structural self-call (the zero-or-more branch
calls itself on the same node); it is therefore given an explicit depth budget
(`fuel`): `Err.fuel` models the source's divergence/stack overflow and can only
arise where the Rust program would not terminate.  All other error values model
panics at the corresponding source line.
-/

namespace AbnfConverter

/-- Strings of the source program, modelled as lists of characters. -/
abbrev Str := List Char

/-- Conversion from Lean string literals to the `Str` model. -/
def str (s : String) : Str := s.data

/-- Decimal rendering of a natural number, as in Rust's `format!("{n}")`. -/
def natStr (n : Nat) : Str := (Nat.repr n).data

/-- Comma-style joining used throughout the emitter: the source pushes a
separator after an element exactly when further elements remain, which is
interleaving a separator between the elements. -/
def joinSep (sep : Str) : List Str → Str
  | [] => []
  | [a] => a
  | a :: b :: rest => a ++ sep ++ joinSep sep (b :: rest)

/-- Error values modelling the panics of the source (and fuel exhaustion,
which models non-termination of the source recursion). -/
inductive Err
  | unsupported
  | badChar
  | unreachableCase
  | fuel
deriving DecidableEq, Repr

/-- `abnf::types::TerminalValues`: `Range(u32, u32)` and `Concatenation(Vec<u32>)`
(the latter is the spec's `CodepointSeq`). -/
inductive TerminalValues
  | range : Nat → Nat → TerminalValues
  | concatenation : List Nat → TerminalValues
deriving Repr

/-- `abnf::types::Repeat`: `Specific(usize)` and `Variable{min, max}`.
The `Variable` constructor is called `var` because `variable` is reserved in Lean. -/
inductive Repeat
  | specific : Nat → Repeat
  | var : Option Nat → Option Nat → Repeat
deriving Repr

/-- `abnf::types::Node`, the ABNF syntax tree. -/
inductive Node
  | alternatives : List Node → Node
  | concatenation : List Node → Node
  | repetition : Repeat → Node → Node
  | group : Node → Node
  | optional : Node → Node
  | rulename : Str → Node
  | string : Str → Node
  | terminalValues : TerminalValues → Node
deriving Repr

/-- `abnf::types::Rule`: a named rule. -/
structure Rule where
  name : Str
  node : Node
deriving Repr

/-- Structural equality on `TerminalValues` (Rust's derived `PartialEq`). -/
def TerminalValues.beq : TerminalValues → TerminalValues → Bool
  | .range a b, .range c d => decide (a = c) && decide (b = d)
  | .concatenation xs, .concatenation ys => decide (xs = ys)
  | _, _ => false

/-- Structural equality on `Repeat` (Rust's derived `PartialEq`). -/
def Repeat.beq : Repeat → Repeat → Bool
  | .specific n, .specific m => decide (n = m)
  | .var a b, .var c d => decide (a = c) && decide (b = d)
  | _, _ => false

mutual

/-- Structural equality on `Node` (Rust's derived `PartialEq`), used by
`Vec::contains` on the extracted-node list. -/
def Node.beq : Node → Node → Bool
  | .alternatives xs, .alternatives ys => nodesBeq xs ys
  | .concatenation xs, .concatenation ys => nodesBeq xs ys
  | .repetition r1 n1, .repetition r2 n2 => r1.beq r2 && Node.beq n1 n2
  | .group n1, .group n2 => Node.beq n1 n2
  | .optional n1, .optional n2 => Node.beq n1 n2
  | .rulename s1, .rulename s2 => decide (s1 = s2)
  | .string s1, .string s2 => decide (s1 = s2)
  | .terminalValues t1, .terminalValues t2 => t1.beq t2
  | _, _ => false

/-- Pointwise structural equality of node lists. -/
def nodesBeq : List Node → List Node → Bool
  | [], [] => true
  | x :: xs, y :: ys => Node.beq x y && nodesBeq xs ys
  | _, _ => false

end

/-- The `（` marker (`NESTED_RULE_START` in the source, U+FF08). -/
def NESTED_RULE_START : Char := '（'

/-- The `）` marker (`NESTED_RULE_END` in the source, U+FF09). -/
def NESTED_RULE_END : Char := '）'

/-- `ret.retain(|c| c != '.')`: drop every `.` character. -/
def removeDots (s : Str) : Str := s.filter (fun c => decide (c ≠ '.'))

/-- `s.replace("_", rep)`: the source calls it with `rep = "underscore"`.
Rust's `replace` scans left to right and replaces non-overlapping matches;
for the single-character pattern `"_"` that is exactly this recursion. -/
def replace_us (rep : Str) : Str → Str
  | [] => []
  | c :: cs => if c = '_' then rep ++ replace_us rep cs else c :: replace_us rep cs

/-- `s.replace("--", rep)`: the source calls it with `rep = "-minus"`.
Rust's `replace` scans left to right and replaces non-overlapping matches;
for the two-character pattern `"--"` that is exactly this recursion. -/
def replace_dd (rep : Str) : Str → Str
  | [] => []
  | [c] => [c]
  | c1 :: c2 :: cs =>
    if c1 = '-' ∧ c2 = '-' then rep ++ replace_dd rep cs
    else c1 :: replace_dd rep (c2 :: cs)

/-- The three-step sanitization pass at the end of `json_rule_name_from_group`
(source lines 181-184): remove `.`, replace `_` with `underscore`, replace
`--` with `-minus`, in that order. -/
def sanitize (s : Str) : Str :=
  replace_dd (str "-minus") (replace_us (str "underscore") (removeDots s))

/-- Scanner for an occurrence of `--` inside a string. -/
def hasDD : Str → Bool
  | [] => false
  | [_] => false
  | c1 :: c2 :: cs => (decide (c1 = '-') && decide (c2 = '-')) || hasDD (c2 :: cs)

/-- Rust's `Debug` escaping of one character inside a `String`
(`format!("{:?}", c.to_string())` produces `"` + escaped char + `"`).
The escapes for quote, backslash, tab, carriage return, newline, nul and the
`\u` hex escape for other control characters follow `char::escape_debug`.
(The full Unicode printability table used by `escape_debug` for exotic
non-ASCII code points is outside the scope of this model; every character in
the ASCII range is handled exactly.) -/
def escape_debug_char (c : Char) : Str :=
  if c = '"' then ['\\', '"']
  else if c = '\\' then ['\\', '\\']
  else if c = '\t' then ['\\', 't']
  else if c = '\r' then ['\\', 'r']
  else if c = '\n' then ['\\', 'n']
  else if c.val.toNat = 0 then ['\\', '0']
  else if c.val.toNat < 0x20 ∨ c.val.toNat = 0x7f ∨ (0x80 ≤ c.val.toNat ∧ c.val.toNat ≤ 0x9f) then
    ['\\', 'u', Char.ofNat 0x7b] ++ Nat.toDigits 16 c.val.toNat ++ [Char.ofNat 0x7d]
  else [c]

/-- Rust's `format!("{:?}", s)` for a `String` value `s`: surrounding quotes
plus per-character `Debug` escaping. -/
def rust_debug_str (s : Str) : Str :=
  '"' :: (s.map escape_debug_char).flatten ++ ['"']

/-- `char::from_u32(v)`, with `.unwrap()`'s panic modelled as `Err.badChar`:
succeeds exactly on Unicode scalar values. -/
def char_from_u32 (v : Nat) : Except Err Char :=
  if v.isValidChar then .ok (Char.ofNat v) else .error .badChar

/-- The value list of Rust's inclusive range `start..=end` (empty when
`start > end`). -/
def rangeIncl (a b : Nat) : List Nat := List.range' a (b + 1 - a)

/-- Wrap a fragment in the nested-rule markers when the flag is set. -/
def bracketIf (b : Bool) (s : Str) : Str :=
  if b then NESTED_RULE_START :: s ++ [NESTED_RULE_END] else s

/-- The `prefix` string and initial `plural` flag computed from the `repeat`
value at the start of `repetition_rule_name` (source lines 59-81): the flag
starts `true` and is cleared for `at-least-1` and `at-most-1`. -/
def repeat_info (r : Repeat) : Bool × Str :=
  match r with
  | .specific n => (true, natStr n)
  | .var (some mn) (some mx) =>
    (true, str "between-" ++ natStr mn ++ str "-and-" ++ natStr mx)
  | .var (some mn) none =>
    (if mn = 1 then false else true, str "at-least-" ++ natStr mn)
  | .var none (some mx) =>
    (if mx = 1 then false else true, str "at-most-" ++ natStr mx)
  | .var none none => (true, str "zero-or-more")

/-- `matches!(&**node, Node::Group(..) | Node::Repetition { .. })`
(source line 83): these inner forms suppress the plural suffix. -/
def isGroupOrRep : Node → Bool
  | .group _ => true
  | .repetition _ _ => true
  | _ => false

mutual

/-- `json_rule_name_from_group` (source lines 90-186).  Every invocation ends
with the sanitization pass, hence the outer `Except.map sanitize`.  The
`Repetition` arm inlines `repetition_rule_name(node, false)` (source line 129);
the standalone wrapper `repetition_rule_name` below is proved to agree with
this inlining. -/
def json_rule_name_from_group (node : Node) (toplevel : Bool) : Except Err Str :=
  Except.map sanitize
    (match node with
    | .alternatives nodes => do
      let core ← name_list_join nodes (str "-or-")
      pure (bracketIf (!toplevel) core)
    | .concatenation nodes => do
      let core ← name_list_join nodes (str "-and-")
      pure (bracketIf (!toplevel) core)
    | .repetition r inner => do
      let rule_name ← json_rule_name_from_group inner false
      let info := repeat_info r
      let plural := info.1 && !(isGroupOrRep inner)
      pure (bracketIf (!toplevel)
        (info.2 ++ str "-" ++ rule_name ++ (if plural then str "s" else [])))
    | .rulename s => pure s
    | .group inner => json_rule_name_from_group inner toplevel
    | .optional inner => do
      let inner_name ← json_rule_name_from_group inner false
      pure (str "optional-" ++ inner_name)
    | .string s => pure s
    | .terminalValues (.range a b) =>
      pure (bracketIf (!toplevel) (str "b" ++ natStr a ++ str "-to-b" ++ natStr b))
    | .terminalValues (.concatenation vs) => do
      let cs ← vs.mapM char_from_u32
      pure (bracketIf (!toplevel)
        (joinSep (str "-and-") (cs.map (fun c => rust_debug_str [c])))))

/-- Iteration over the children of `Alternatives`/`Concatenation` in
`json_rule_name_from_group`: each child named at non-toplevel, a separator
pushed while further children remain. -/
def name_list_join (nodes : List Node) (sep : Str) : Except Err Str :=
  match nodes with
  | [] => pure []
  | [n] => json_rule_name_from_group n false
  | n :: rest => do
    let a ← json_rule_name_from_group n false
    let b ← name_list_join rest sep
    pure (a ++ sep ++ b)

end

/-- `repetition_rule_name` (source lines 54-88).  The `let … else unreachable!()`
is modelled by `Err.unreachableCase`.  The `toplevel` flag is passed through to
the inner node's name (source line 82); the result is not sanitized here. -/
def repetition_rule_name (node : Node) (toplevel : Bool) : Except Err Str :=
  match node with
  | .repetition r inner => do
    let rule_name ← json_rule_name_from_group inner toplevel
    let info := repeat_info r
    let plural := info.1 && !(isGroupOrRep inner)
    pure (info.2 ++ str "-" ++ rule_name ++ (if plural then str "s" else []))
  | _ => .error .unreachableCase

/-- The `Repetition` arm of `json_rule_name_from_group` is exactly
`repetition_rule_name(node, false)` wrapped in the nested-rule markers (when
non-toplevel) and sanitized — the inlining in the mutual block above is
faithful to source lines 125-133. -/
theorem json_rule_name_repetition_arm (r : Repeat) (inner : Node) (toplevel : Bool) :
    json_rule_name_from_group (.repetition r inner) toplevel =
      Except.map (fun core => sanitize (bracketIf (!toplevel) core))
        (repetition_rule_name (.repetition r inner) false) := by
  cases h : json_rule_name_from_group inner false <;>
    simp [json_rule_name_from_group, repetition_rule_name, h, Except.map, Except.bind, bind,
      pure, Except.pure]

/-- `json_rule_body_from_group` (source lines 188-334).  `fuel` bounds the
recursion depth (see the header comment); every recursive call of the source
decrements it by one.  The reference substitution (source lines 196-202) uses
structural node equality, as Rust's `Vec::contains` does. -/
def json_rule_body_from_group (fuel : Nat) (main_node : Node) (rules : List Rule)
    (extra_nodes : List Node) (toplevel : Bool) : Except Err Str :=
  match fuel with
  | 0 => .error .fuel
  | fuel + 1 =>
    if !toplevel && extra_nodes.any (fun n => Node.beq n main_node) then do
      let nm ← json_rule_name_from_group main_node true
      pure (str "\"<" ++ nm ++ str ">\"")
    else
      match main_node with
      | .alternatives nodes => do
        let parts ← nodes.mapM (fun n => json_rule_body_from_group fuel n rules extra_nodes false)
        pure (joinSep (str ", ") (parts.map (fun p => str "[" ++ p ++ str "]")))
      | .concatenation nodes => do
        let parts ← nodes.mapM (fun n => json_rule_body_from_group fuel n rules extra_nodes false)
        pure (joinSep (str ", ") parts)
      | .repetition (.specific n) inner => do
        let single ← json_rule_body_from_group fuel inner rules extra_nodes false
        pure (str "[" ++ joinSep (str ", ") (List.replicate n single) ++ str "]")
      | .repetition (.var (some _) (some _)) _ => .error .unsupported
      | .repetition (.var (some mn) none) inner => do
        let single ← json_rule_body_from_group fuel inner rules extra_nodes false
        let more ← json_rule_name_from_group (.repetition (.var (some mn) none) inner) false
        pure (str "[" ++ joinSep (str ", ") (List.replicate mn single) ++
          str "], [" ++ single ++ str ", \"<" ++ more ++ str ">\"]")
      | .repetition (.var none (some mx)) inner => do
        let single ← json_rule_body_from_group fuel inner rules extra_nodes false
        pure (str "[], " ++ joinSep (str ", ")
          ((List.range mx).map (fun i =>
            str "[" ++ joinSep (str ", ") (List.replicate (i + 1) single) ++ str "]")))
      | .repetition (.var none none) inner => do
        let single ← json_rule_body_from_group fuel inner rules extra_nodes false
        let more ← json_rule_body_from_group fuel (.repetition (.var none none) inner)
          rules extra_nodes false
        pure (str "[], [" ++ single ++ str ", " ++ more ++ str "]")
      | .rulename s => pure (str "\"<" ++ s ++ str ">\"")
      | .group inner => json_rule_body_from_group fuel inner rules extra_nodes false
      | .optional inner => do
        let body ← json_rule_body_from_group fuel inner rules extra_nodes false
        pure (str "[], [" ++ body ++ str "]")
      | .string s =>
        pure (if s = str "\\" then str "\"\\\\\"" else str "\"" ++ s ++ str "\"")
      | .terminalValues (.range a b) => do
        let cs ← (rangeIncl a b).mapM char_from_u32
        pure (joinSep (str ", ") (cs.map (fun c => str "[" ++ rust_debug_str [c] ++ str "]")))
      | .terminalValues (.concatenation vs) => do
        let cs ← vs.mapM char_from_u32
        pure (joinSep (str ", ") (cs.map (fun c => str "[" ++ rust_debug_str [c] ++ str "]")))

mutual

/-- `extract_nested_groups_from_node` (source lines 28-52): collect, in
discovery order, the nodes that will be promoted to their own rules. -/
def extract_nested_groups_from_node : Node → List Node
  | .alternatives ns => extract_from_list ns
  | .concatenation ns => extract_from_list ns
  | .repetition r inner => .repetition r inner :: extract_nested_groups_from_node inner
  | .group inner => .group inner :: extract_nested_groups_from_node inner
  | .optional inner => .optional inner :: extract_nested_groups_from_node inner
  | .terminalValues (.range a b) => [.terminalValues (.range a b)]
  | _ => []

/-- Children of `Alternatives`/`Concatenation` are walked in order. -/
def extract_from_list : List Node → List Node
  | [] => []
  | n :: rest => extract_nested_groups_from_node n ++ extract_from_list rest

end

/-- `extract_nested_grups_from_rules` (source lines 20-26; the typo is the
source's). -/
def extract_nested_grups_from_rules (rules : List Rule) : List Node :=
  rules.foldr (fun r acc => extract_nested_groups_from_node r.node ++ acc) []

/-- `add_missing_body_brackets` (source lines 11-17). -/
def add_missing_body_brackets (body : Str) : Str :=
  match body with
  | '[' :: _ => body
  | _ => str "[" ++ body ++ str "]"

mutual

/-- Number of constructors in a node tree (an upper bound on its depth). -/
def nodeSize : Node → Nat
  | .alternatives ns => 1 + nodesSize ns
  | .concatenation ns => 1 + nodesSize ns
  | .repetition _ inner => 1 + nodeSize inner
  | .group inner => 1 + nodeSize inner
  | .optional inner => 1 + nodeSize inner
  | _ => 1

/-- Total size of a node list. -/
def nodesSize : List Node → Nat
  | [] => 0
  | n :: rest => 1 + nodeSize n + nodesSize rest

end

/-- Depth budget that is always sufficient for the source's terminating runs:
the recursion of `json_rule_body_from_group` descends into a strict subterm at
every step except the zero-or-more self-call, which returns after one further
step whenever the node is in the extracted set (always the case in the
pipeline). -/
def bodyFuel (n : Node) : Nat := nodeSize n + 2

/-- The emission loop of `extract_rules_for_nested_groups` (source lines
346-356): `known` models the `HashSet` of already-emitted rule names;
name-duplicate nodes are skipped, first occurrence wins. -/
def emit_extracted_rules (rules : List Rule) (extra_nodes : List Node) (known : List Str) :
    List Node → Except Err Str
  | [] => pure []
  | n :: rest => do
    let rule_name ← json_rule_name_from_group n true
    if rule_name ∈ known then
      emit_extracted_rules rules extra_nodes known rest
    else do
      let body ← json_rule_body_from_group (bodyFuel n) n rules extra_nodes true
      let body := add_missing_body_brackets body
      let tail ← emit_extracted_rules rules extra_nodes (rule_name :: known) rest
      pure (str "  \"<" ++ rule_name ++ str ">\": [" ++ body ++ str "],\n" ++ tail)

/-- `extract_rules_for_nested_groups` (source lines 336-358): the synthetic
start rule, then one rule per name-distinct extracted node. -/
def extract_rules_for_nested_groups (rules : List Rule) (extra_nodes : List Node) :
    Except Err Str := do
  let start_rule := str "  \"<start>\": [[\"program\"]],\n"
  if extra_nodes.isEmpty then
    pure start_rule
  else do
    let tail ← emit_extracted_rules rules extra_nodes [] extra_nodes
    pure (start_rule ++ tail)

/-- `rule_to_json` (source lines 379-384): note the body is synthesized with
`toplevel = false` (source line 381). -/
def rule_to_json (rule : Rule) (rules : List Rule) (extra_nodes : List Node) :
    Except Err Str := do
  let body ← json_rule_body_from_group (bodyFuel rule.node) rule.node rules extra_nodes false
  pure (str "  \"<" ++ rule.name ++ str ">\": [" ++ add_missing_body_brackets body ++ str "]")

/-- The rule iteration of `ruleset_to_json` (source lines 367-374): rules in
declaration order, joined with `", \n"`. -/
def rules_to_json_list (rules : List Rule) (extra_nodes : List Node) :
    List Rule → Except Err Str
  | [] => pure []
  | [r] => rule_to_json r rules extra_nodes
  | r :: r2 :: rest => do
    let a ← rule_to_json r rules extra_nodes
    let b ← rules_to_json_list rules extra_nodes (r2 :: rest)
    pure (a ++ str ", \n" ++ b)

/-- `ruleset_to_json` (source lines 360-377): the full conversion. -/
def ruleset_to_json (rules : List Rule) : Except Err Str := do
  let extra_nodes := extract_nested_grups_from_rules rules
  let head ← extract_rules_for_nested_groups rules extra_nodes
  let mids ← rules_to_json_list rules extra_nodes rules
  pure (str "\x7b\n" ++ head ++ mids ++ str "\n\x7d")

/-
Cross-validation of the embedding against the unit tests of the source file
(`nested_group_extraction` and `repetitions` in `src/abnf_converter/src/main.rs`).
-/

/-- The node of `grp-a-any-bc = a ( b / c )`. -/
def grpAnyBC : Node :=
  .concatenation [.rulename (str "a"),
    .group (.alternatives [.rulename (str "b"), .rulename (str "c")])]

/-- The node of `nested-any-grp = a ( b / (a / c) )`. -/
def nestedAnyGrp : Node :=
  .concatenation [.rulename (str "a"),
    .group (.alternatives [.rulename (str "b"),
      .group (.alternatives [.rulename (str "a"), .rulename (str "c")])])]

/-- The extracted-node list of the two group rules above. -/
def testExtra : List Node :=
  extract_nested_grups_from_rules [⟨str "grp-a-any-bc", grpAnyBC⟩, ⟨str "nested-any-grp", nestedAnyGrp⟩]

/-- The first extracted node: the group `( b / c )`. -/
def testNode0 : Node := .group (.alternatives [.rulename (str "b"), .rulename (str "c")])

/-- The second extracted node: the group `( b / (a / c) )`. -/
def testNode1 : Node :=
  .group (.alternatives [.rulename (str "b"),
    .group (.alternatives [.rulename (str "a"), .rulename (str "c")])])

/-- The third extracted node: the inner group `(a / c)`. -/
def testNode2 : Node := .group (.alternatives [.rulename (str "a"), .rulename (str "c")])

example : testExtra = [testNode0, testNode1, testNode2] := rfl

example : json_rule_name_from_group testNode0 true = .ok (str "b-or-c") := rfl

example : json_rule_body_from_group 9 testNode0 [] testExtra true
    = .ok (str "[\"<b>\"], [\"<c>\"]") := rfl

example : json_rule_name_from_group testNode1 true = .ok (str "b-or-（a-or-c）") := rfl

example : json_rule_body_from_group 9 testNode1 [] testExtra true
    = .ok (str "[\"<b>\"], [\"<a-or-c>\"]") := rfl

example : repetition_rule_name (.repetition (.var none none) (.rulename (str "a"))) true
    = .ok (str "zero-or-more-as") := rfl

example : repetition_rule_name (.repetition (.var (some 1) none) (.rulename (str "a"))) true
    = .ok (str "at-least-1-a") := rfl

example : repetition_rule_name (.repetition (.var none (some 2)) (.rulename (str "a"))) true
    = .ok (str "at-most-2-as") := rfl

example : repetition_rule_name (.repetition (.var (some 1) (some 2)) (.rulename (str "a"))) true
    = .ok (str "between-1-and-2-as") := rfl

example : json_rule_body_from_group 9
    (.repetition (.var none none) (.rulename (str "a")))
    [] [.repetition (.var none none) (.rulename (str "a"))] true
    = .ok (str "[], [\"<a>\", \"<zero-or-more-as>\"]") := rfl

/-
Properties of the sanitization pass.
-/

theorem dot_not_mem_removeDots (s : Str) : '.' ∉ removeDots s := by
  simp [removeDots, List.mem_filter]

theorem removeDots_eq_self {s : Str} (h : '.' ∉ s) : removeDots s = s := by
  refine List.filter_eq_self.mpr (fun a ha => ?_)
  simp only [decide_eq_true_eq]
  rintro rfl
  exact h ha

theorem mem_replace_us (rep : Str) (c : Char) :
    ∀ (s : Str), c ∈ replace_us rep s → c ∈ rep ∨ c ∈ s
  | [] => by intro h; simp [replace_us] at h
  | a :: as => by
    intro h
    by_cases ha : a = '_'
    · rw [replace_us, if_pos ha] at h
      rcases List.mem_append.1 h with h1 | h2
      · exact .inl h1
      · rcases mem_replace_us rep c as h2 with h3 | h3
        · exact .inl h3
        · exact .inr (List.mem_cons_of_mem a h3)
    · rw [replace_us, if_neg ha] at h
      rcases List.mem_cons.1 h with h1 | h2
      · exact .inr (h1 ▸ List.mem_cons_self a as)
      · rcases mem_replace_us rep c as h2 with h3 | h3
        · exact .inl h3
        · exact .inr (List.mem_cons_of_mem a h3)

theorem mem_replace_dd (rep : Str) (c : Char) :
    ∀ (s : Str), c ∈ replace_dd rep s → c ∈ rep ∨ c ∈ s
  | [] => by intro h; simp [replace_dd] at h
  | [a] => by
    intro h
    simp only [replace_dd, List.mem_singleton] at h
    exact .inr (by simp [h])
  | a :: b :: cs => by
    intro h
    by_cases hab : a = '-' ∧ b = '-'
    · rw [replace_dd, if_pos hab] at h
      rcases List.mem_append.1 h with h1 | h2
      · exact .inl h1
      · rcases mem_replace_dd rep c cs h2 with h3 | h3
        · exact .inl h3
        · exact .inr (by simp [h3])
    · rw [replace_dd, if_neg hab] at h
      rcases List.mem_cons.1 h with h1 | h2
      · exact .inr (by simp [h1])
      · rcases mem_replace_dd rep c (b :: cs) h2 with h3 | h3
        · exact .inl h3
        · exact .inr (List.mem_cons_of_mem a h3)

theorem us_not_mem_replace_us (rep : Str) (hrep : '_' ∉ rep) :
    ∀ (s : Str), '_' ∉ replace_us rep s
  | [] => by simp [replace_us]
  | c :: cs => by
    by_cases hc : c = '_'
    · rw [replace_us, if_pos hc]
      intro h
      rcases List.mem_append.1 h with h1 | h2
      · exact hrep h1
      · exact us_not_mem_replace_us rep hrep cs h2
    · rw [replace_us, if_neg hc]
      intro h
      rcases List.mem_cons.1 h with h1 | h2
      · exact hc h1.symm
      · exact us_not_mem_replace_us rep hrep cs h2

theorem replace_us_eq_self (rep : Str) :
    ∀ (s : Str), '_' ∉ s → replace_us rep s = s
  | [] => fun _ => rfl
  | c :: cs => fun h => by
    have hc : ¬ c = '_' := fun hh => h (by simp [hh])
    rw [replace_us, if_neg hc,
      replace_us_eq_self rep cs (fun hm => h (List.mem_cons_of_mem c hm))]

theorem hasDD_minus_append (x : Str) : hasDD (str "-minus" ++ x) = hasDD x := by
  have h : str "-minus" ++ x = '-' :: 'm' :: 'i' :: 'n' :: 'u' :: 's' :: x := rfl
  rw [h]
  cases x with
  | nil => rfl
  | cons y ys => simp [hasDD]

theorem replace_dd_spec : ∀ (s : Str),
    hasDD (replace_dd (str "-minus") s) = false ∧
      (∀ t, replace_dd (str "-minus") s = '-' :: t → ∃ u, s = '-' :: u)
  | [] => by
    refine ⟨rfl, fun t h => ?_⟩
    simp [replace_dd] at h
  | [a] => by
    refine ⟨rfl, fun t h => ?_⟩
    simp only [replace_dd] at h
    exact ⟨[], by rw [List.cons.injEq] at h; rw [h.1]⟩
  | a :: b :: cs => by
    by_cases hab : a = '-' ∧ b = '-'
    · have ih := replace_dd_spec cs
      refine ⟨?_, fun t h => ⟨b :: cs, by rw [hab.1]⟩⟩
      rw [replace_dd, if_pos hab, hasDD_minus_append]
      exact ih.1
    · have ih := replace_dd_spec (b :: cs)
      constructor
      · rw [replace_dd, if_neg hab]
        cases hY : replace_dd (str "-minus") (b :: cs) with
        | nil => rfl
        | cons y ys =>
          rw [hasDD]
          have h1 : hasDD (y :: ys) = false := by rw [← hY]; exact ih.1
          rw [h1, Bool.or_false]
          by_cases hy : y = '-'
          · by_cases ha : a = '-'
            · exfalso
              rcases ih.2 ys (by rw [hY, hy]) with ⟨u, hu⟩
              rw [List.cons.injEq] at hu
              exact hab ⟨ha, hu.1⟩
            · simp [ha]
          · simp [hy]
      · intro t h
        rw [replace_dd, if_neg hab] at h
        rw [List.cons.injEq] at h
        exact ⟨b :: cs, by rw [h.1]⟩

theorem replace_dd_eq_self (rep : Str) :
    ∀ (s : Str), hasDD s = false → replace_dd rep s = s
  | [] => fun _ => rfl
  | [_] => fun _ => rfl
  | a :: b :: cs => fun h => by
    rw [hasDD, Bool.or_eq_false_iff] at h
    have h2 : ¬ (a = '-' ∧ b = '-') := by
      intro ⟨ha, hb⟩
      have := h.1
      rw [ha, hb] at this
      simp at this
    rw [replace_dd, if_neg h2, replace_dd_eq_self rep (b :: cs) h.2]

theorem sanitize_no_dot (s : Str) : '.' ∉ sanitize s := by
  unfold sanitize
  intro h
  rcases mem_replace_dd _ _ _ h with h1 | h1
  · revert h1; decide
  · rcases mem_replace_us _ _ _ h1 with h2 | h2
    · revert h2; decide
    · exact dot_not_mem_removeDots s h2

theorem sanitize_no_us (s : Str) : '_' ∉ sanitize s := by
  unfold sanitize
  intro h
  rcases mem_replace_dd _ _ _ h with h1 | h1
  · revert h1; decide
  · exact us_not_mem_replace_us _ (by decide) _ h1

theorem sanitize_no_dd (s : Str) : hasDD (sanitize s) = false :=
  (replace_dd_spec _).1

theorem sanitize_idem (s : Str) : sanitize (sanitize s) = sanitize s := by
  conv_lhs => rw [sanitize]
  rw [removeDots_eq_self (sanitize_no_dot s),
    replace_us_eq_self _ _ (sanitize_no_us s),
    replace_dd_eq_self _ _ (sanitize_no_dd s)]

/-
Helpers for reasoning about the `Except`-valued synthesizers.
-/

/-- Success test on an `Except` result. -/
def eIsOk {α : Type} : Except Err α → Bool
  | .ok _ => true
  | .error _ => false

theorem except_map_ok {f : Str → Str} {x : Except Err Str} {b : Str}
    (h : Except.map f x = .ok b) : ∃ a, x = .ok a ∧ b = f a := by
  cases x with
  | error e => simp [Except.map] at h
  | ok a =>
    refine ⟨a, rfl, ?_⟩
    simp only [Except.map, Except.ok.injEq] at h
    exact h.symm

theorem eIsOk_map {f : Str → Str} (x : Except Err Str) :
    eIsOk (Except.map f x) = eIsOk x := by
  cases x <;> rfl

theorem eIsOk_bind_pure {α β : Type} (x : Except Err α) (f : α → β) :
    eIsOk (x >>= fun r => (pure (f r) : Except Err β)) = eIsOk x := by
  cases x <;> rfl

/-- Validity precondition on the code points of a `TerminalValues` node:
every value (for a range, every value of the inclusive interval) is a
Unicode scalar value. -/
def tvValid : TerminalValues → Prop
  | .range a b => ∀ v ∈ rangeIncl a b, v.isValidChar
  | .concatenation vs => ∀ v ∈ vs, v.isValidChar

instance (tv : TerminalValues) : Decidable (tvValid tv) :=
  match tv with
  | .range a b => inferInstanceAs (Decidable (∀ v ∈ rangeIncl a b, v.isValidChar))
  | .concatenation vs => inferInstanceAs (Decidable (∀ v ∈ vs, v.isValidChar))

theorem mapM_char_isOk : ∀ (vs : List Nat),
    eIsOk (vs.mapM char_from_u32) = true ↔ ∀ v ∈ vs, v.isValidChar
  | [] => by
    constructor
    · intro _ v hv
      simp at hv
    · intro _
      rfl
  | a :: as => by
    rw [List.mapM_cons]
    by_cases ha : a.isValidChar
    · have hred : char_from_u32 a = .ok (Char.ofNat a) := by
        rw [char_from_u32, if_pos ha]
      rw [hred]
      have : ((Except.ok (Char.ofNat a) : Except Err Char) >>= fun b =>
          (as.mapM char_from_u32) >>= fun bs => pure (b :: bs)) =
          (as.mapM char_from_u32) >>= fun bs => pure (Char.ofNat a :: bs) := rfl
      rw [this, eIsOk_bind_pure, mapM_char_isOk as]
      constructor
      · intro h v hv
        rcases List.mem_cons.1 hv with rfl | hv2
        · exact ha
        · exact h v hv2
      · intro h v hv
        exact h v (List.mem_cons_of_mem a hv)
    · have hred : char_from_u32 a = .error .badChar := by
        rw [char_from_u32, if_neg ha]
      rw [hred]
      constructor
      · intro h; exact absurd h (by simp [eIsOk, bind, Except.bind])
      · intro h; exact absurd (h a (List.mem_cons_self a as)) ha

theorem mapM_char_invalid : ∀ (vs : List Nat), (¬ ∀ v ∈ vs, v.isValidChar) →
    vs.mapM char_from_u32 = .error .badChar
  | [] => fun h => absurd (by simp) h
  | a :: as => fun h => by
    rw [List.mapM_cons]
    by_cases ha : a.isValidChar
    · have h2 : ¬ ∀ v ∈ as, v.isValidChar := by
        intro hh
        exact h (fun v hv => by
          rcases List.mem_cons.1 hv with rfl | hv2
          · exact ha
          · exact hh v hv2)
      have hred : char_from_u32 a = .ok (Char.ofNat a) := by
        rw [char_from_u32, if_pos ha]
      rw [hred, mapM_char_invalid as h2]
      rfl
    · have hred : char_from_u32 a = .error .badChar := by
        rw [char_from_u32, if_neg ha]
      rw [hred]
      rfl

/-
The claims.
-/

/-- Claim C1 (code bug): the claim states that every reference to an extracted
node — including the self-reference of the `at-least-m` right-recursive
encoding — carries exactly the name under which that node's rule is emitted.
The code violates this for the `at-least-m` self-reference: the extracted rule
`1*a` is emitted under the name `at-least-1-a` (name synthesized with
`toplevel = true`), but the self-reference inside its body is synthesized with
`toplevel = false` (source line 255) and therefore carries the nested-rule
markers: `（at-least-1-a）`, which names no emitted rule.  This theorem
evaluates the code at that failing input and records that the two names
differ. -/
theorem c1_at_least_self_reference_mismatch :
    json_rule_name_from_group (.repetition (.var (some 1) none) (.rulename (str "a"))) true
      = .ok (str "at-least-1-a")
    ∧ json_rule_body_from_group 9 (.repetition (.var (some 1) none) (.rulename (str "a")))
        [] [.repetition (.var (some 1) none) (.rulename (str "a"))] true
      = .ok (str "[\"<a>\"], [\"<a>\", \"<（at-least-1-a）>\"]")
    ∧ str "（at-least-1-a）" ≠ str "at-least-1-a" :=
  ⟨rfl, rfl, by decide⟩

/-- Claim C2 (counterexample): for `m = 2` the claim predicts that the second
alternative holds `m` copies of the inner body before the self-reference, but
the code emits exactly one copy there (source line 256), whichever way the
self-reference is named. -/
theorem c2_counterexample :
    json_rule_body_from_group 9 (.repetition (.var (some 2) none) (.rulename (str "a"))) [] [] true
      = .ok (str "[\"<a>\", \"<a>\"], [\"<a>\", \"<（at-least-2-as）>\"]")
    ∧ str "[\"<a>\", \"<a>\"], [\"<a>\", \"<（at-least-2-as）>\"]"
        ≠ str "[\"<a>\", \"<a>\"], [\"<a>\", \"<a>\", \"<（at-least-2-as）>\"]"
    ∧ str "[\"<a>\", \"<a>\"], [\"<a>\", \"<（at-least-2-as）>\"]"
        ≠ str "[\"<a>\", \"<a>\"], [\"<a>\", \"<a>\", \"<at-least-2-as>\"]" :=
  ⟨rfl, by decide, by decide⟩

/-- Claim C2 (amended): for every `Repetition{Variable{min: Some(m), max: None},
inner}` synthesized at toplevel, the body consists of exactly two alternatives:
(a) exactly `m` copies of `inner`'s body, and (b) a single copy of `inner`'s
body followed by a self-reference carrying the repetition's non-toplevel
synthesized name. -/
theorem c2_at_least_unrolling (m fuel : Nat) (inner : Node) (rules : List Rule)
    (extra : List Node) (X nm : Str)
    (hX : json_rule_body_from_group fuel inner rules extra false = .ok X)
    (hnm : json_rule_name_from_group (.repetition (.var (some m) none) inner) false = .ok nm) :
    json_rule_body_from_group (fuel + 1) (.repetition (.var (some m) none) inner)
        rules extra true
      = .ok (str "[" ++ joinSep (str ", ") (List.replicate m X) ++
          str "], [" ++ X ++ str ", \"<" ++ nm ++ str ">\"]") := by
  simp [json_rule_body_from_group, hX, hnm, bind, Except.bind, pure, Except.pure]

/-- Witness for C2's amended theorem at `m = 1`, inner node `a`. -/
theorem c2_at_least_unrolling_witness :
    json_rule_body_from_group 4 (.repetition (.var (some 1) none) (.rulename (str "a"))) [] [] true
      = .ok (str "[" ++ joinSep (str ", ") (List.replicate 1 (str "\"<a>\"")) ++
          str "], [" ++ str "\"<a>\"" ++ str ", \"<" ++ str "（at-least-1-a）" ++ str ">\"]") :=
  c2_at_least_unrolling 1 3 (.rulename (str "a")) [] [] (str "\"<a>\"")
    (str "（at-least-1-a）") rfl rfl

/-- Claim C3 (counterexample): for `M = 0` the claim predicts the single empty
sequence `[]`, but the code emits `[], ` — the empty alternative followed by a
dangling separator (the separator at source line 259 is unconditional). -/
theorem c3_counterexample :
    json_rule_body_from_group 9 (.repetition (.var none (some 0)) (.rulename (str "a"))) [] [] true
      = .ok (str "[], ")
    ∧ str "[], " ≠ str "[]" :=
  ⟨rfl, by decide⟩

/-- A nonempty-tail unfolding of `joinSep`. -/
theorem joinSep_cons (sep a : Str) (l : List Str) (h : l ≠ []) :
    joinSep sep (a :: l) = a ++ sep ++ joinSep sep l := by
  cases l with
  | nil => exact absurd rfl h
  | cons b bs => rfl

/-- Claim C3 (amended): for every `Repetition{Variable{min: None, max: Some(M)},
inner}` with `M ≥ 1` synthesized at toplevel, the body consists of exactly
`M+1` alternatives, one for each count from `0` to `M` inclusive, each count
its own bracketed sequence of that many copies of `inner`'s body.  (The `M = 0`
case instead yields `[], ` with a dangling separator — see the
counterexample.) -/
theorem c3_at_most_unrolling (M fuel : Nat) (inner : Node) (rules : List Rule)
    (extra : List Node) (X : Str) (hM : 1 ≤ M)
    (hX : json_rule_body_from_group fuel inner rules extra false = .ok X) :
    json_rule_body_from_group (fuel + 1) (.repetition (.var none (some M)) inner)
        rules extra true
      = .ok (joinSep (str ", ") ((List.range (M + 1)).map (fun k =>
          str "[" ++ joinSep (str ", ") (List.replicate k X) ++ str "]"))) := by
  have hne : (List.range M).map
      ((fun k => str "[" ++ joinSep (str ", ") (List.replicate k X) ++ str "]") ∘ Nat.succ)
      ≠ [] := by
    simp [List.range_eq_nil]
    omega
  rw [List.range_succ_eq_map, List.map_cons, List.map_map, joinSep_cons _ _ _ hne]
  simp only [json_rule_body_from_group, hX, bind, Except.bind, pure, Except.pure,
    Function.comp_def, Nat.succ_eq_add_one, joinSep, List.replicate,
    Bool.not_true, Bool.false_and, Bool.false_eq_true, if_false, List.append_assoc]
  rfl

/-- Witness for C3's amended theorem at `M = 2`, inner node `a`. -/
theorem c3_at_most_unrolling_witness :
    json_rule_body_from_group 4 (.repetition (.var none (some 2)) (.rulename (str "a"))) [] [] true
      = .ok (joinSep (str ", ") ((List.range 3).map (fun k =>
          str "[" ++ joinSep (str ", ") (List.replicate k (str "\"<a>\"")) ++ str "]"))) :=
  c3_at_most_unrolling 2 3 (.rulename (str "a")) [] [] (str "\"<a>\"") (by decide) rfl

/-- Claim C4 (counterexample): for the codepoint sequence `[98, 99]` (`"b"`,
`"c"`) the body is `["b"], ["c"]` — one singleton alternative per value, the
same shape as the `Range` case — and not one comma-joined sequence of the two
literals, under either bracketing convention. -/
theorem c4_counterexample :
    json_rule_body_from_group 9 (.terminalValues (.concatenation [98, 99])) [] [] true
      = .ok (str "[\"b\"], [\"c\"]")
    ∧ str "[\"b\"], [\"c\"]" ≠ str "[\"b\", \"c\"]"
    ∧ str "[\"b\"], [\"c\"]" ≠ str "\"b\", \"c\"" :=
  ⟨rfl, by decide, by decide⟩

/-- Claim C4 (amended): for every `TerminalValues(CodepointSeq(values))` node
whose body is synthesized directly, the body is a comma-joined list of
alternatives, one per value, each a bracketed singleton sequence holding that
value's single-character literal (identical in shape to the `Range`
treatment). -/
theorem c4_codepoint_seq_body (vs : List Nat) (fuel : Nat) (rules : List Rule)
    (extra : List Node) (cs : List Char)
    (h : vs.mapM char_from_u32 = .ok cs) :
    json_rule_body_from_group (fuel + 1) (.terminalValues (.concatenation vs)) rules extra true
      = .ok (joinSep (str ", ")
          (cs.map (fun c => str "[" ++ rust_debug_str [c] ++ str "]"))) := by
  rw [json_rule_body_from_group]
  simp only [Bool.not_true, Bool.false_and, Bool.false_eq_true, if_false]
  rw [show ((do
      let cs ← vs.mapM char_from_u32
      pure (joinSep (str ", ")
        (cs.map (fun c => str "[" ++ rust_debug_str [c] ++ str "]")))) :
      Except Err Str) = vs.mapM char_from_u32 >>= fun cs =>
        pure (joinSep (str ", ")
          (cs.map (fun c => str "[" ++ rust_debug_str [c] ++ str "]"))) from rfl,
    h]
  rfl

/-- Witness for C4's amended theorem at values `[98, 99]`. -/
theorem c4_codepoint_seq_body_witness :
    json_rule_body_from_group 1 (.terminalValues (.concatenation [98, 99])) [] [] true
      = .ok (joinSep (str ", ")
          (['b', 'c'].map (fun c => str "[" ++ rust_debug_str [c] ++ str "]"))) :=
  c4_codepoint_seq_body [98, 99] 0 [] [] ['b', 'c'] rfl

/-- Claim C5 (code bug): the claim (and the spec's output-shape description)
state that the synthetic start rule's single element is a rule reference
wrapped in angle brackets inside quotes, like every other reference.  The code
instead emits the bare quoted name `"program"` without angle brackets (source
line 339).  This theorem evaluates the emitter and the full conversion on an
empty rule list and records that the emitted start line is not the
angle-bracketed variant. -/
theorem c5_start_rule_reference_unbracketed :
    ruleset_to_json [] = .ok (str "\x7b\n  \"<start>\": [[\"program\"]],\n\n\x7d")
    ∧ extract_rules_for_nested_groups [] [] = .ok (str "  \"<start>\": [[\"program\"]],\n")
    ∧ str "  \"<start>\": [[\"program\"]],\n" ≠ str "  \"<start>\": [[\"<program>\"]],\n" :=
  ⟨rfl, rfl, by decide⟩

/-- Claim C6: a `Repetition{Variable{min: Some(_), max: Some(_)}}` node in
body-synthesis position fails fatally with the unsupported-construct error
(`unimplemented!()`, source line 245), and the whole conversion of a rule set
containing one aborts with that error, emitting no output. -/
theorem c6_bounded_repetition_unsupported :
    (∀ (fuel mn mx : Nat) (inner : Node) (rules : List Rule) (extra : List Node),
      json_rule_body_from_group (fuel + 1) (.repetition (.var (some mn) (some mx)) inner)
          rules extra true
        = .error .unsupported)
    ∧ ruleset_to_json
        [⟨str "one-star-two-a", .repetition (.var (some 1) (some 2)) (.rulename (str "a"))⟩]
        = .error .unsupported := by
  constructor
  · intro fuel mn mx inner rules extra
    simp [json_rule_body_from_group]
  · rfl

/-- Claim C7: every string returned by the name synthesizer contains no `.`,
no `_` and no `--`, and the three-step sanitization pass (remove `.`, replace
`_` with `underscore`, replace `--` with `-minus`) leaves every returned name
unchanged. -/
theorem c7_name_sanitization_idempotent (node : Node) (toplevel : Bool) (out : Str)
    (h : json_rule_name_from_group node toplevel = .ok out) :
    '.' ∉ out ∧ '_' ∉ out ∧ hasDD out = false ∧ sanitize out = out := by
  rw [json_rule_name_from_group.eq_def] at h
  rcases except_map_ok h with ⟨a, _, rfl⟩
  exact ⟨sanitize_no_dot a, sanitize_no_us a, sanitize_no_dd a, sanitize_idem a⟩

/-- Witness for C7 on the rule name `a_b.c`. -/
theorem c7_name_sanitization_idempotent_witness :
    json_rule_name_from_group (.rulename (str "a_b.c")) true = .ok (str "aunderscorebc")
    ∧ ('.' ∉ str "aunderscorebc" ∧ '_' ∉ str "aunderscorebc"
        ∧ hasDD (str "aunderscorebc") = false
        ∧ sanitize (str "aunderscorebc") = str "aunderscorebc") :=
  ⟨rfl, c7_name_sanitization_idempotent (.rulename (str "a_b.c")) true (str "aunderscorebc") rfl⟩

/-- Claim C8: the conversion is a deterministic function of the input tree —
structurally equal rule lists produce identical output text.  (The embedding
is a pure function: the source is single-threaded, reads no ambient state
during conversion, and uses no randomness.) -/
theorem c8_conversion_deterministic (rules1 rules2 : List Rule) (h : rules1 = rules2) :
    ruleset_to_json rules1 = ruleset_to_json rules2 := by
  rw [h]

/-- Witness for C8 on a concrete rule list. -/
theorem c8_conversion_deterministic_witness :
    ([⟨str "a", .string (str "a")⟩] : List Rule) = [⟨str "a", .string (str "a")⟩]
    ∧ ruleset_to_json [⟨str "a", .string (str "a")⟩]
        = ruleset_to_json [⟨str "a", .string (str "a")⟩] :=
  ⟨rfl, c8_conversion_deterministic [⟨str "a", .string (str "a")⟩]
    [⟨str "a", .string (str "a")⟩] rfl⟩

/-- Claim C9: name synthesis and body synthesis of a `TerminalValues` node are
jointly total exactly when every code point value (for `Range`, every value of
the inclusive interval) is a Unicode scalar value; on any violating input the
body synthesizer fails with the error modelling the
`char::from_u32(..).unwrap()` panic. -/
theorem c9_terminal_values_totality (tv : TerminalValues) (fuel : Nat)
    (rules : List Rule) (extra : List Node) :
    ((eIsOk (json_rule_name_from_group (.terminalValues tv) true) = true ∧
      eIsOk (json_rule_body_from_group (fuel + 1) (.terminalValues tv) rules extra true) = true)
      ↔ tvValid tv)
    ∧ (¬ tvValid tv →
      json_rule_body_from_group (fuel + 1) (.terminalValues tv) rules extra true
        = .error .badChar) := by
  cases tv with
  | range a b =>
    constructor
    · constructor
      · intro h
        have hb := h.2
        rw [json_rule_body_from_group] at hb
        simp only [Bool.not_true, Bool.false_and, Bool.false_eq_true, if_false] at hb
        rw [show ((do
            let cs ← (rangeIncl a b).mapM char_from_u32
            pure (joinSep (str ", ")
              (cs.map (fun c => str "[" ++ rust_debug_str [c] ++ str "]")))) :
            Except Err Str) = (rangeIncl a b).mapM char_from_u32 >>= fun cs =>
              pure (joinSep (str ", ")
                (cs.map (fun c => str "[" ++ rust_debug_str [c] ++ str "]"))) from rfl,
          eIsOk_bind_pure] at hb
        exact (mapM_char_isOk _).1 hb
      · intro h
        refine ⟨rfl, ?_⟩
        rw [json_rule_body_from_group]
        simp only [Bool.not_true, Bool.false_and, Bool.false_eq_true, if_false]
        rw [show ((do
            let cs ← (rangeIncl a b).mapM char_from_u32
            pure (joinSep (str ", ")
              (cs.map (fun c => str "[" ++ rust_debug_str [c] ++ str "]")))) :
            Except Err Str) = (rangeIncl a b).mapM char_from_u32 >>= fun cs =>
              pure (joinSep (str ", ")
                (cs.map (fun c => str "[" ++ rust_debug_str [c] ++ str "]"))) from rfl,
          eIsOk_bind_pure]
        exact (mapM_char_isOk _).2 h
    · intro h
      rw [json_rule_body_from_group]
      simp only [Bool.not_true, Bool.false_and, Bool.false_eq_true, if_false]
      rw [mapM_char_invalid _ h]
      rfl
  | concatenation vs =>
    constructor
    · constructor
      · intro h
        have hb := h.2
        rw [json_rule_body_from_group] at hb
        simp only [Bool.not_true, Bool.false_and, Bool.false_eq_true, if_false] at hb
        rw [show ((do
            let cs ← vs.mapM char_from_u32
            pure (joinSep (str ", ")
              (cs.map (fun c => str "[" ++ rust_debug_str [c] ++ str "]")))) :
            Except Err Str) = vs.mapM char_from_u32 >>= fun cs =>
              pure (joinSep (str ", ")
                (cs.map (fun c => str "[" ++ rust_debug_str [c] ++ str "]"))) from rfl,
          eIsOk_bind_pure] at hb
        exact (mapM_char_isOk _).1 hb
      · intro h
        constructor
        · rw [json_rule_name_from_group, eIsOk_map]
          rw [show ((do
              let cs ← vs.mapM char_from_u32
              pure (bracketIf (!true)
                (joinSep (str "-and-") (cs.map (fun c => rust_debug_str [c]))))) :
              Except Err Str) = vs.mapM char_from_u32 >>= fun cs =>
                pure (bracketIf (!true)
                  (joinSep (str "-and-") (cs.map (fun c => rust_debug_str [c])))) from rfl,
            eIsOk_bind_pure]
          exact (mapM_char_isOk _).2 h
        · rw [json_rule_body_from_group]
          simp only [Bool.not_true, Bool.false_and, Bool.false_eq_true, if_false]
          rw [show ((do
              let cs ← vs.mapM char_from_u32
              pure (joinSep (str ", ")
                (cs.map (fun c => str "[" ++ rust_debug_str [c] ++ str "]")))) :
              Except Err Str) = vs.mapM char_from_u32 >>= fun cs =>
                pure (joinSep (str ", ")
                  (cs.map (fun c => str "[" ++ rust_debug_str [c] ++ str "]"))) from rfl,
            eIsOk_bind_pure]
          exact (mapM_char_isOk _).2 h
    · intro h
      rw [json_rule_body_from_group]
      simp only [Bool.not_true, Bool.false_and, Bool.false_eq_true, if_false]
      rw [mapM_char_invalid _ h]
      rfl

/-- Witness for C9 at the lone surrogate code point `0xD800`. -/
theorem c9_terminal_values_totality_witness :
    ¬ tvValid (.concatenation [0xD800])
    ∧ json_rule_body_from_group 1 (.terminalValues (.concatenation [0xD800])) [] [] true
        = .error .badChar :=
  ⟨by decide, (c9_terminal_values_totality (.concatenation [0xD800]) 0 [] []).2 (by decide)⟩

/-- Claim C10: for a `Specific(n)` repetition whose inner node is neither a
group nor a repetition, the synthesized name always carries the plural suffix
`s` — including for `n = 1` and `n = 0`; among `Variable` repeats, exactly
`min = Some(1), max = None` and `min = None, max = Some(1)` suppress the
suffix, every other combination keeps it. -/
theorem c10_specific_repetition_pluralization (inner : Node) (tl : Bool) (nm : Str)
    (hg : isGroupOrRep inner = false)
    (hn : json_rule_name_from_group inner tl = .ok nm) :
    (∀ n, repetition_rule_name (.repetition (.specific n) inner) tl
        = .ok (natStr n ++ str "-" ++ nm ++ str "s"))
    ∧ repetition_rule_name (.repetition (.var (some 1) none) inner) tl
        = .ok (str "at-least-1-" ++ nm)
    ∧ repetition_rule_name (.repetition (.var none (some 1)) inner) tl
        = .ok (str "at-most-1-" ++ nm)
    ∧ (∀ a, a ≠ 1 → repetition_rule_name (.repetition (.var (some a) none) inner) tl
        = .ok (str "at-least-" ++ natStr a ++ str "-" ++ nm ++ str "s"))
    ∧ (∀ b, b ≠ 1 → repetition_rule_name (.repetition (.var none (some b)) inner) tl
        = .ok (str "at-most-" ++ natStr b ++ str "-" ++ nm ++ str "s"))
    ∧ (∀ a b, repetition_rule_name (.repetition (.var (some a) (some b)) inner) tl
        = .ok (str "between-" ++ natStr a ++ str "-and-" ++ natStr b ++ str "-" ++ nm
            ++ str "s"))
    ∧ repetition_rule_name (.repetition (.var none none) inner) tl
        = .ok (str "zero-or-more-" ++ nm ++ str "s") := by
  refine ⟨fun n => ?_, ?_, ?_, fun a ha => ?_, fun b hb => ?_, fun a b => ?_, ?_⟩ <;>
    simp [repetition_rule_name, repeat_info, hn, hg, bind, Except.bind, pure, Except.pure,
      List.append_assoc, *]
  all_goals rfl

/-- Witness for C10 with inner node `a` (so `nm = "a"`), exercising `n = 0`
(plural kept) and `min = Some(1)` (suffix suppressed). -/
theorem c10_specific_repetition_pluralization_witness :
    repetition_rule_name (.repetition (.specific 0) (.rulename (str "a"))) true
      = .ok (natStr 0 ++ str "-" ++ str "a" ++ str "s")
    ∧ repetition_rule_name (.repetition (.var (some 1) none) (.rulename (str "a"))) true
      = .ok (str "at-least-1-" ++ str "a") :=
  have h := c10_specific_repetition_pluralization (.rulename (str "a")) true (str "a") rfl rfl
  ⟨h.1 0, h.2.1⟩

end AbnfConverter
